import Mathlib

/-!
# MoveToGive — verification of the workout-completion / weekly-reward core

Shallow embedding of the completion engine, calendar/week mapper, badge engine
and movement store of the MoveToGive web application
(`public/js/services/workout.service.js`, `movement.service.js`,
`badge.service.js`, `utils/helpers.js`, `utils/validation.js`), together with
proofs of the spec claims about them.

Modelling conventions:
* JS objects used as string-keyed dictionaries become insertion-ordered
  association lists (`Dict`); `getk`/`setk` mirror property read and write
  (write replaces the first binding in place, otherwise appends — JS objects
  have unique keys, so this matches property assignment).
* `Math.random()` draws become an externally supplied natural number,
  reduced modulo the size of the sampled range.
* The persistence adapter (`storage.get`/`storage.set` over localStorage)
  becomes a `persist` step parameterised by whether the write succeeds;
  `storage.set` catches storage exceptions and returns `false`, which its
  callers (`saveData`) discard.
* Calendar dates are the parsed `(year, month, day)` triples (the app builds
  date keys as the unpadded template `` `${year}-${month}-${day}` `` and
  `completeWorkout` immediately splits them back into numbers).
-/

namespace MoveToGive

/-- Decimal digits of a natural number as characters, fuelled structurally
(`fuel ≥ number of digits` suffices; callers pass `n + 1`). -/
def natToStrAux : Nat → Nat → String
  | 0, _ => ""
  | fuel + 1, n =>
    if n < 10 then String.mk [Char.ofNat (48 + n)]
    else natToStrAux fuel (n / 10) ++ String.mk [Char.ofNat (48 + n % 10)]

/-- Decimal rendering of a natural number, as JS template literals produce. -/
def natToStr (n : Nat) : String := natToStrAux (n + 1) n

/-- A JS object used as a string-keyed dictionary of numbers:
insertion-ordered association list with unique keys. -/
abbrev Dict := List (String × Int)

/-- Property read `m[k]`: value of the first binding of `k`, if any. -/
def getk (m : Dict) (k : String) : Option Int :=
  match m.find? (fun p => p.1 == k) with
  | some p => some p.2
  | none => none

/-- Property write `m[k] = v`: replace the first binding of `k` in place,
otherwise append a new binding (JS objects keep insertion order). -/
def setk : Dict → String → Int → Dict
  | [], k, v => [(k, v)]
  | p :: rest, k, v => if p.1 == k then (k, v) :: rest else p :: setk rest k v

/-- `Object.values(m).reduce((sum, val) => sum + val, 0)`. -/
def sumValues (m : Dict) : Int := (m.map Prod.snd).foldl (· + ·) 0

/-- JS truthiness of a numeric property read: `undefined` and `0` are falsy. -/
def truthy : Option Int → Bool
  | none => false
  | some v => v != 0

/-- Leap year rule used by `new Date(y, m, 0).getDate()`. -/
def isLeapYear (y : Nat) : Bool := (y % 4 == 0 && y % 100 != 0) || y % 400 == 0

/-- Number of days of month `m` (1-based) of year `y`, as
`new Date(year, month, 0).getDate()` yields. The wildcard row covers
December; claims about calendar behaviour restrict months to `1 ≤ m ≤ 12`. -/
def daysInMonth (y m : Nat) : Nat :=
  match m with
  | 1 => 31
  | 2 => if isLeapYear y then 29 else 28
  | 3 => 31
  | 4 => 30
  | 5 => 31
  | 6 => 30
  | 7 => 31
  | 8 => 31
  | 9 => 30
  | 10 => 31
  | 11 => 30
  | _ => 31

/-- Days of year `y` strictly before month `m`. -/
def daysBeforeMonth (y m : Nat) : Nat :=
  ((List.range (m - 1)).map (fun i => daysInMonth y (i + 1))).foldl (· + ·) 0

/-- Day of week of the calendar date `(y, m, d)` in the proleptic Gregorian
calendar, Sunday = 0, as JS `Date.prototype.getDay` computes for valid dates
(January 1 of year 1 is a Monday). -/
def dayOfWeek (y m d : Nat) : Nat :=
  let z := y - 1
  (365 * z + z / 4 - z / 100 + z / 400 + daysBeforeMonth y m + (d - 1) + 1) % 7

/-- `getFirstDayOfMonth`: weekday of day 1 of the month (Sunday = 0). -/
def getFirstDayOfMonth (y m : Nat) : Nat := dayOfWeek y m 1

/-- `getWeekNumberInMonth`: `Math.ceil((firstDayOfWeek + dayOfMonth) / 7)`;
for `d ≥ 1` the numerator is positive so the ceiling is `(f + d + 6) / 7`. -/
def getWeekNumberInMonth (y m d : Nat) : Nat :=
  (getFirstDayOfMonth y m + d + 6) / 7

/-- The unpadded date key `` `${year}-${month}-${day}` ``. -/
def dateKey (y m d : Nat) : String :=
  natToStr y ++ "-" ++ natToStr m ++ "-" ++ natToStr d

/-- The week key `` `${year}-${month}-week${weekNum}` ``. -/
def weekKey (y m w : Nat) : String :=
  natToStr y ++ "-" ++ natToStr m ++ "-week" ++ natToStr w

/-- A calendar date; movement start/end dates and the completed date are
handled as dates at calendar granularity. -/
structure Date where
  year : Nat
  month : Nat
  day : Nat
deriving DecidableEq, Repr

/-- Encoding of a date as a single number whose order agrees with the
timestamp order JS obtains from `new Date(a) >= new Date(b)` on
calendar-valid dates (month ≤ 12 < 100 and day ≤ 31 < 100). -/
def Date.code (d : Date) : Nat := d.year * 10000 + d.month * 100 + d.day

/-- A friend record; the embedded operations only consume the count of
entries (badge metric `friends`), so the simulated stats carried by
`generateMockFriend` are not modelled. -/
structure Friend where
  name : String
deriving DecidableEq, Repr

/-- A group movement, as created by `createMovement`. `createdAt` is the
creation timestamp (an ISO string in the source). -/
structure Movement where
  id : Nat
  name : String
  charity : String
  description : String
  startDate : Date
  endDate : Date
  creator : String
  members : List String
  totalRaised : Int
  weeklyContributions : Dict
  createdAt : Nat
deriving DecidableEq, Repr

/-- The persisted `walktogive_data` document (§3 UserProgress).
`completedDays` maps date keys to `true`, so it is carried as the ordered
list of keys; `cheers` likewise. The `profiles` map is an opaque UI cache
untouched by the embedded operations and is not modelled. -/
structure Data where
  completedDays : List String
  weeklyRewards : Dict
  minReward : Int
  maxReward : Int
  friends : List Friend
  movements : List Movement
  cheers : List String
  inviteCode : String
  unlockedBadges : List String
deriving DecidableEq, Repr

/-- `saveData` / `storage.set`: the mutated document reaches the store only
when the underlying `localStorage.setItem` does not throw (`saveOk`);
`storage.set` catches the exception and returns `false`, and every caller
discards that return value. -/
def persist (saveOk : Bool) (old upd : Data) : Data := if saveOk then upd else old

/-- `randomInt(min, max)` = `Math.floor(Math.random() * (max - min + 1)) + min`.
The random draw is modelled by an externally supplied natural number `rnd`
reduced modulo the size of the range, so that for `min ≤ max` the result
ranges exactly over the closed interval `[min, max]`, as in the source. -/
def randomInt (min max : Int) (rnd : Nat) : Int :=
  min + Int.ofNat (rnd % (max - min + 1).toNat)

/-- `data.completedDays[dateKey] = true`: a fresh key is appended, an
existing key keeps its (only possible) value `true`. -/
def addCompletedDay (days : List String) (k : String) : List String :=
  if days.contains k then days else days ++ [k]

/-- `isWeekComplete(data, year, month, weekNum)`: iterate every calendar day
of the month, counting days that fall in the requested week bucket and are
marked complete; the week is complete when the count reaches 7. -/
def isWeekComplete (data : Data) (year month weekNum : Nat) : Bool :=
  let dim := daysInMonth year month
  let count := ((List.range dim).map (· + 1)).countP (fun day =>
    getWeekNumberInMonth year month day == weekNum &&
    data.completedDays.contains (dateKey year month day))
  decide (7 ≤ count)

/-- `isMovementActiveForDate(movement, dateKey)`:
`date >= new Date(startDate) && date <= new Date(endDate)`. -/
def isMovementActiveForDate (mov : Movement) (year month day : Nat) : Bool :=
  let date := Date.code ⟨year, month, day⟩
  decide (mov.startDate.code ≤ date) && decide (date ≤ mov.endDate.code)

/-- The contribution fan-out body shared by `completeWorkout` and
`addMovementContribution`: initialise `weeklyContributions[weekKey]` to `0`
when the current value is falsy, then `+= amount`, and
`totalRaised += amount`. -/
def contributeReward (mov : Movement) (wk : String) (amount : Int) : Movement :=
  let wcs := if truthy (getk mov.weeklyContributions wk)
             then mov.weeklyContributions
             else setk mov.weeklyContributions wk 0
  let cur := match getk wcs wk with
             | some v => v
             | none => 0
  { mov with
    weeklyContributions := setk wcs wk (cur + amount),
    totalRaised := mov.totalRaised + amount }

/-- Result record of `completeWorkout`. -/
structure WorkoutResult where
  success : Bool
  weekCompleted : Bool
  reward : Option Int
deriving DecidableEq, Repr

/-- `completeWorkout(dateKey)`, with the date key given as its parsed
`(year, month, day)` components (the source splits the unpadded key string
back into these numbers on entry). Marks the day complete, recomputes week
completion, draws and records a reward when the week is complete and
`weeklyRewards[weekKey]` is falsy, fans the reward out to the member-joined
movements active for the date, persists, and reports
`{success: true, weekCompleted, reward}`. -/
def completeWorkout (saveOk : Bool) (rnd : Nat) (s : Data)
    (year month day : Nat) : Data × WorkoutResult :=
  let dk := dateKey year month day
  let data1 := { s with completedDays := addCompletedDay s.completedDays dk }
  let weekNum := getWeekNumberInMonth year month day
  let wk := weekKey year month weekNum
  let weekCompleted := isWeekComplete data1 year month weekNum
  if weekCompleted && !(truthy (getk data1.weeklyRewards wk)) then
    let reward := randomInt s.minReward s.maxReward rnd
    let data2 := { data1 with weeklyRewards := setk data1.weeklyRewards wk reward }
    let data3 := { data2 with movements := data2.movements.map (fun mov =>
      if mov.members.contains "You" && isMovementActiveForDate mov year month day then
        contributeReward mov wk reward
      else mov) }
    (persist saveOk s data3, ⟨true, weekCompleted, some reward⟩)
  else
    (persist saveOk s data1, ⟨true, weekCompleted, none⟩)

/-- `getTotalCompletedDays`: `Object.keys(data.completedDays).length`. -/
def getTotalCompletedDays (s : Data) : Nat := s.completedDays.length

/-- `getTotalEarnings`: sum of all `weeklyRewards` values. -/
def getTotalEarnings (s : Data) : Int := sumValues s.weeklyRewards

/-- One step of JS ascending insertion into a sorted list of keys, with the
default `Array.prototype.sort` string order. -/
def insertSorted (a : String) : List String → List String
  | [] => [a]
  | b :: bs => if a ≤ b then a :: b :: bs else b :: insertSorted a bs

/-- `Object.keys(m).sort()`: ascending lexicographic order. -/
def sortKeysAsc (l : List String) : List String := l.foldr insertSorted []

/-- The `for ... of` loop of `getCurrentStreak`: count keys with truthy
reward values from the front, stopping at the first falsy one. -/
def streakScan (rewards : Dict) : List String → Nat
  | [] => 0
  | k :: ks => if truthy (getk rewards k) then streakScan rewards ks + 1 else 0

/-- `getCurrentStreak`: scan `weeklyRewards` keys in descending lexicographic
order (`sort().reverse()`), counting consecutive truthy values. -/
def getCurrentStreak (s : Data) : Nat :=
  streakScan s.weeklyRewards (sortKeysAsc (s.weeklyRewards.map Prod.fst)).reverse

/-- `updateRewardRange(min, max)`: reject inverted or sub-minimum bounds
without touching the store; otherwise persist the new bounds. -/
def updateRewardRange (saveOk : Bool) (s : Data) (min max : Int) : Data × Bool :=
  if min > max ∨ min < 1 then (s, false)
  else (persist saveOk s { s with minReward := min, maxReward := max }, true)

/-- The six badge metric types. -/
inductive BadgeType where
  | days
  | weeks
  | streak
  | earnings
  | movements
  | friends
deriving DecidableEq, Repr

/-- A static badge definition (icon and description strings are
presentation-only and not modelled). -/
structure Badge where
  id : String
  name : String
  requirement : Int
  type : BadgeType
deriving DecidableEq, Repr

/-- The twelve fixed `BADGE_DEFINITIONS`, in declaration order. -/
def BADGE_DEFINITIONS : List Badge :=
  [ ⟨"first_day", "First Step", 1, .days⟩
  , ⟨"week_warrior", "Week Warrior", 1, .weeks⟩
  , ⟨"streak_starter", "Streak Starter", 3, .streak⟩
  , ⟨"consistent_champion", "Consistent Champion", 6, .streak⟩
  , ⟨"unstoppable", "Unstoppable Force", 12, .streak⟩
  , ⟨"month_master", "Month Master", 30, .days⟩
  , ⟨"hundred_club", "100 Club", 100, .days⟩
  , ⟨"charity_champion", "Charity Champion", 50, .earnings⟩
  , ⟨"generous_giver", "Generous Giver", 100, .earnings⟩
  , ⟨"movement_maker", "Movement Maker", 1, .movements⟩
  , ⟨"social_butterfly", "Social Butterfly", 5, .friends⟩
  , ⟨"year_long", "Year-Long Warrior", 365, .days⟩ ]

/-- The six derived progress metrics. -/
structure Progress where
  days : Int
  weeks : Int
  streak : Int
  earnings : Int
  movements : Int
  friends : Int
deriving DecidableEq, Repr

/-- `getCurrentProgress(data)`. -/
def getCurrentProgress (s : Data) : Progress :=
  { days := (getTotalCompletedDays s : Int)
  , weeks := (s.weeklyRewards.length : Int)
  , streak := (getCurrentStreak s : Int)
  , earnings := getTotalEarnings s
  , movements := ((s.movements.filter (fun m => m.creator == "You")).length : Int)
  , friends := (s.friends.length : Int) }

/-- The metric lookup `progress[badge.type]`. -/
def progressOf (p : Progress) : BadgeType → Int
  | .days => p.days
  | .weeks => p.weeks
  | .streak => p.streak
  | .earnings => p.earnings
  | .movements => p.movements
  | .friends => p.friends

/-- `shouldUnlockBadge(badge, progress)`: `current >= requirement` (the
source's `|| 0` falsy default leaves a numeric metric unchanged). -/
def shouldUnlockBadge (b : Badge) (p : Progress) : Bool :=
  decide (b.requirement ≤ progressOf p b.type)

/-- The `BADGE_DEFINITIONS.forEach` loop of `checkAndUnlockBadges`: skip
already-unlocked badges, otherwise push newly deserved ones onto both the
unlocked list and the newly-unlocked accumulator, in declaration order. -/
def unlockPass (p : Progress) : List Badge → List String → List String × List Badge
  | [], u => (u, [])
  | b :: bs, u =>
    if u.contains b.id then unlockPass p bs u
    else if shouldUnlockBadge b p then
      let r := unlockPass p bs (u ++ [b.id])
      (r.1, b :: r.2)
    else unlockPass p bs u

/-- `checkAndUnlockBadges()`: compute metrics, run the unlock loop, persist
only when something newly unlocked, and return the newly unlocked badges. -/
def checkAndUnlockBadges (saveOk : Bool) (s : Data) : Data × List Badge :=
  let p := getCurrentProgress s
  let r := unlockPass p BADGE_DEFINITIONS s.unlockedBadges
  if r.2.length > 0 then (persist saveOk s { s with unlockedBadges := r.1 }, r.2)
  else (s, r.2)

/-- Validation result record of the `utils/validation.js` helpers. -/
structure Validation where
  valid : Bool
  message : String
deriving DecidableEq, Repr

/-- `isValidMovementName`: non-empty after trimming, 3 to 100 characters. -/
def isValidMovementName (name : String) : Validation :=
  if name == "" || name.trim.length == 0 then
    ⟨false, "Movement name cannot be empty"⟩
  else if name.trim.length < 3 then
    ⟨false, "Movement name must be at least 3 characters"⟩
  else if name.trim.length > 100 then
    ⟨false, "Movement name must be less than 100 characters"⟩
  else ⟨true, ""⟩

/-- `isValidMovementDescription`: non-empty after trimming, 10 to 1000
characters. -/
def isValidMovementDescription (description : String) : Validation :=
  if description == "" || description.trim.length == 0 then
    ⟨false, "Description cannot be empty"⟩
  else if description.trim.length < 10 then
    ⟨false, "Description must be at least 10 characters"⟩
  else if description.trim.length > 1000 then
    ⟨false, "Description must be less than 1000 characters"⟩
  else ⟨true, ""⟩

/-- `isValidDateRange`: end date must not precede the start date. The NaN
branch of the source rejects unparseable date strings, which cannot arise
for structured dates. -/
def isValidDateRange (startDate endDate : Date) : Validation :=
  if endDate.code < startDate.code then
    ⟨false, "End date must be after start date"⟩
  else ⟨true, ""⟩

/-- Result record of `createMovement`. -/
structure MovementResult where
  success : Bool
  movement : Option Movement
  error : Option String
deriving DecidableEq, Repr

/-- `data.movements.find(m => m.id === movementId)`. -/
def findMovement (s : Data) (movementId : Nat) : Option Movement :=
  s.movements.find? (fun m => m.id == movementId)

/-- JS `find`-then-mutate on the movements array: apply `f` to the first
movement with the given id, leaving the rest untouched. -/
def updateFirstMovement (movementId : Nat) (f : Movement → Movement) :
    List Movement → List Movement
  | [] => []
  | m :: ms =>
    if m.id == movementId then f m :: ms
    else m :: updateFirstMovement movementId f ms

/-- `createMovement({name, charity, description, startDate, endDate})`:
validate, append a fresh movement whose only member is the creator `'You'`,
persist, then re-run `checkAndUnlockBadges`. `now` is the `Date.now()`
timestamp used for the id and `createdAt`. -/
def createMovement (saveOk : Bool) (now : Nat) (s : Data)
    (name charity description : String) (startDate endDate : Date) :
    Data × MovementResult :=
  let nv := isValidMovementName name
  if !nv.valid then (s, ⟨false, none, some nv.message⟩)
  else
    let dv := isValidMovementDescription description
    if !dv.valid then (s, ⟨false, none, some dv.message⟩)
    else
      let rv := isValidDateRange startDate endDate
      if !rv.valid then (s, ⟨false, none, some rv.message⟩)
      else if charity == "" then (s, ⟨false, none, some "Charity required"⟩)
      else
        let mov : Movement :=
          ⟨now, name, charity, description, startDate, endDate,
           "You", ["You"], 0, [], now⟩
        let data1 := { s with movements := s.movements ++ [mov] }
        let data2 := persist saveOk s data1
        let data3 := (checkAndUnlockBadges saveOk data2).1
        (data3, ⟨true, some mov, none⟩)

/-- `joinMovement(movementId)`: push `'You'` onto the members of the found
movement unless already a member; report whether a join happened. -/
def joinMovement (saveOk : Bool) (s : Data) (movementId : Nat) : Data × Bool :=
  match findMovement s movementId with
  | none => (s, false)
  | some mov =>
    if mov.members.contains "You" then (s, false)
    else
      let movs := updateFirstMovement movementId
        (fun m => { m with members := m.members ++ ["You"] }) s.movements
      (persist saveOk s { s with movements := movs }, true)

/-- `leaveMovement(movementId)`: splice out the first `'You'` entry of the
found movement's members (`indexOf` / `splice`); report whether a leave
happened. -/
def leaveMovement (saveOk : Bool) (s : Data) (movementId : Nat) : Data × Bool :=
  match findMovement s movementId with
  | none => (s, false)
  | some mov =>
    if !(mov.members.contains "You") then (s, false)
    else
      let movs := updateFirstMovement movementId
        (fun m => { m with members := m.members.erase "You" }) s.movements
      (persist saveOk s { s with movements := movs }, true)

/-- `addMovementContribution(movementId, weekKey, amount)`: add to the found
movement's weekly contribution bucket and running total when the local user
is a member; silently a no-op otherwise. -/
def addMovementContribution (saveOk : Bool) (s : Data) (movementId : Nat)
    (wk : String) (amount : Int) : Data :=
  match findMovement s movementId with
  | none => s
  | some mov =>
    if !(mov.members.contains "You") then s
    else
      let movs := updateFirstMovement movementId
        (fun m => contributeReward m wk amount) s.movements
      persist saveOk s { s with movements := movs }

/-- Iterated `completeWorkout` (successful persistence), one call per entry
`(year, month, day, rnd)`. -/
def runWorkouts (s : Data) : List (Nat × Nat × Nat × Nat) → Data
  | [] => s
  | (y, m, d, rnd) :: rest => runWorkouts (completeWorkout true rnd s y m d).1 rest

/-! ## Invariant predicates -/

/-- Every stored weekly reward is a positive amount. -/
abbrev RewardsPositive (s : Data) : Prop := ∀ p ∈ s.weeklyRewards, 0 < p.2

/-- §3 invariant: every movement's running total equals the sum of its weekly
contributions. -/
abbrev MovementTotalsOk (s : Data) : Prop :=
  ∀ mov ∈ s.movements, mov.totalRaised = sumValues mov.weeklyContributions

/-- Every movement's member list names the local user at most once. -/
abbrev MembersOnce (s : Data) : Prop :=
  ∀ mov ∈ s.movements, mov.members.count "You" ≤ 1

/-! ## Dictionary lemmas -/

theorem getk_nil (k : String) : getk [] k = none := rfl

theorem getk_cons (p : String × Int) (m : Dict) (k : String) :
    getk (p :: m) k = if p.1 = k then some p.2 else getk m k := by
  by_cases h : p.1 = k
  · have hb : (p.1 == k) = true := beq_iff_eq.mpr h
    simp [getk, List.find?, hb, h]
  · have hb : (p.1 == k) = false := beq_eq_false_iff_ne.mpr h
    simp [getk, List.find?, hb, h]

theorem setk_nil (k : String) (v : Int) : setk [] k v = [(k, v)] := rfl

theorem setk_cons (p : String × Int) (m : Dict) (k : String) (v : Int) :
    setk (p :: m) k v = if p.1 = k then (k, v) :: m else p :: setk m k v := by
  by_cases h : p.1 = k <;> simp [setk, h]

theorem getk_setk_self (m : Dict) (k : String) (v : Int) :
    getk (setk m k v) k = some v := by
  induction m with
  | nil => simp [setk_nil, getk_cons]
  | cons p rest ih =>
    rw [setk_cons]
    by_cases h : p.1 = k
    · simp [h, getk_cons]
    · simp [h, getk_cons, ih]

theorem getk_setk_ne (m : Dict) (k k2 : String) (v : Int) (h : k2 ≠ k) :
    getk (setk m k v) k2 = getk m k2 := by
  induction m with
  | nil => simp [setk_nil, getk_cons, getk_nil, Ne.symm h]
  | cons p rest ih =>
    rw [setk_cons]
    by_cases hp : p.1 = k
    · simp [hp, getk_cons, h, Ne.symm h, (hp ▸ Ne.symm h : p.1 ≠ k2)]
    · by_cases hk2 : p.1 = k2 <;> simp [hp, hk2, h, getk_cons, ih]

theorem mem_setk (m : Dict) (k : String) (v : Int) (p : String × Int)
    (h : p ∈ setk m k v) : p = (k, v) ∨ p ∈ m := by
  induction m with
  | nil => simpa [setk_nil] using h
  | cons q rest ih =>
    rw [setk_cons] at h
    by_cases hq : q.1 = k
    · rw [if_pos hq, List.mem_cons] at h
      rcases h with h | h
      · exact Or.inl h
      · exact Or.inr (List.mem_cons_of_mem q h)
    · rw [if_neg hq, List.mem_cons] at h
      rcases h with h | h
      · exact Or.inr (h ▸ List.mem_cons_self q rest)
      · rcases ih h with h2 | h2
        · exact Or.inl h2
        · exact Or.inr (List.mem_cons_of_mem q h2)

theorem getk_mem (m : Dict) (k : String) (v : Int) (h : getk m k = some v) :
    (k, v) ∈ m := by
  induction m with
  | nil => simp [getk_nil] at h
  | cons q rest ih =>
    rw [getk_cons] at h
    by_cases hq : q.1 = k
    · rw [if_pos hq] at h
      obtain ⟨a, b⟩ := q
      obtain rfl : a = k := hq
      obtain rfl : b = v := by injection h
      exact List.mem_cons_self _ _
    · rw [if_neg hq] at h
      exact List.mem_cons_of_mem q (ih h)

theorem getk_isSome_of_mem_keys (m : Dict) (k : String)
    (h : k ∈ m.map Prod.fst) : ∃ v, getk m k = some v := by
  induction m with
  | nil => simp at h
  | cons q rest ih =>
    rw [getk_cons]
    by_cases hq : q.1 = k
    · exact ⟨q.2, by rw [if_pos hq]⟩
    · simp only [List.map_cons, List.mem_cons] at h
      rcases h with h | h
      · exact absurd h.symm hq
      · rcases ih h with ⟨v, hv⟩
        exact ⟨v, by rw [if_neg hq]; exact hv⟩

theorem foldl_add_init (l : List Int) (a : Int) :
    l.foldl (· + ·) a = a + l.foldl (· + ·) 0 := by
  induction l generalizing a with
  | nil => simp
  | cons x xs ih =>
    simp only [List.foldl_cons]
    rw [ih (a + x), ih (0 + x)]
    ring

theorem sumValues_cons (p : String × Int) (m : Dict) :
    sumValues (p :: m) = p.2 + sumValues m := by
  simp only [sumValues, List.map_cons, List.foldl_cons, Int.zero_add]
  exact foldl_add_init _ _

theorem sumValues_setk (m : Dict) (k : String) (v : Int) :
    sumValues (setk m k v) = sumValues m + v - (getk m k).getD 0 := by
  induction m with
  | nil => simp [setk_nil, getk_nil, sumValues]
  | cons q rest ih =>
    rw [setk_cons, getk_cons]
    by_cases hq : q.1 = k
    · rw [if_pos hq, if_pos hq, sumValues_cons, sumValues_cons]
      simp only [Option.getD_some]
      ring
    · rw [if_neg hq, if_neg hq, sumValues_cons, sumValues_cons, ih]
      ring

/-! ## Fan-out body lemmas -/

theorem contributeReward_getk (mov : Movement) (wk : String) (a : Int) :
    getk (contributeReward mov wk a).weeklyContributions wk
      = some ((getk mov.weeklyContributions wk).getD 0 + a) := by
  unfold contributeReward
  by_cases ht : truthy (getk mov.weeklyContributions wk) = true
  · rw [if_pos ht]
    cases hv : getk mov.weeklyContributions wk with
    | none => rw [hv] at ht; simp [truthy] at ht
    | some v => simp [hv, getk_setk_self]
  · rw [if_neg ht]
    cases hv : getk mov.weeklyContributions wk with
    | none => simp [hv, getk_setk_self]
    | some v =>
      have hv0 : v = 0 := by
        rw [hv] at ht
        simpa [truthy] using ht
      simp [hv, hv0, getk_setk_self]

theorem contributeReward_totals (mov : Movement) (wk : String) (a : Int)
    (h : mov.totalRaised = sumValues mov.weeklyContributions) :
    (contributeReward mov wk a).totalRaised
      = sumValues (contributeReward mov wk a).weeklyContributions := by
  unfold contributeReward
  by_cases ht : truthy (getk mov.weeklyContributions wk) = true
  · rw [if_pos ht]
    cases hv : getk mov.weeklyContributions wk with
    | none => rw [hv] at ht; simp [truthy] at ht
    | some v => simp [hv, sumValues_setk, h]; ring
  · rw [if_neg ht]
    cases hv : getk mov.weeklyContributions wk with
    | none =>
      simp only [hv]
      rw [sumValues_setk, sumValues_setk, getk_setk_self]
      simp [hv, h]
    | some v =>
      have hv0 : v = 0 := by
        rw [hv] at ht
        simpa [truthy] using ht
      simp only [hv, hv0]
      rw [sumValues_setk, sumValues_setk, getk_setk_self]
      simp [hv, hv0, h]

theorem contributeReward_members (mov : Movement) (wk : String) (a : Int) :
    (contributeReward mov wk a).members = mov.members := rfl

/-! ## Week-bucket counting (spec-side reading of §4.2 step 4) -/

/-- The spec's reading of week completion input: the number of distinct
calendar days of `(year, month)` that fall in week bucket `weekNum` and are
marked complete. -/
def specBucketCompletedCount (s : Data) (year month weekNum : Nat) : Nat :=
  ((Finset.Icc 1 (daysInMonth year month)).filter (fun day =>
    getWeekNumberInMonth year month day = weekNum ∧
    s.completedDays.contains (dateKey year month day) = true)).card

/-- The number of calendar days of the month lying in week bucket
`weekNum`. -/
def specBucketSize (year month weekNum : Nat) : Nat :=
  ((Finset.Icc 1 (daysInMonth year month)).filter (fun day =>
    getWeekNumberInMonth year month day = weekNum)).card

theorem countP_range_card (n : Nat) (p : Nat → Bool) :
    ((List.range n).map (· + 1)).countP p
      = ((Finset.Icc 1 n).filter (fun d => p d = true)).card := by
  induction n with
  | zero =>
    rw [show Finset.Icc 1 0 = ∅ from Finset.Icc_eq_empty (by omega)]
    simp
  | succ n ih =>
    rw [List.range_succ, List.map_append, List.countP_append]
    have hicc : Finset.Icc 1 (n + 1) = insert (n + 1) (Finset.Icc 1 n) :=
      (Nat.Icc_insert_succ_right (by omega)).symm
    rw [hicc, Finset.filter_insert]
    by_cases hp : p (n + 1) = true
    · rw [if_pos hp, Finset.card_insert_of_not_mem (by simp)]
      simp [hp, ih]
    · rw [if_neg hp]
      simp only [List.map_cons, List.map_nil, List.countP_cons, List.countP_nil]
      simp [hp, ih]

theorem isWeekComplete_iff (data : Data) (y m w : Nat) :
    isWeekComplete data y m w = true ↔ 7 ≤ specBucketCompletedCount data y m w := by
  simp only [isWeekComplete, specBucketCompletedCount, decide_eq_true_eq]
  rw [countP_range_card]
  have hfil : (Finset.Icc 1 (daysInMonth y m)).filter
        (fun d => (getWeekNumberInMonth y m d == w &&
          data.completedDays.contains (dateKey y m d)) = true)
      = (Finset.Icc 1 (daysInMonth y m)).filter
        (fun d => getWeekNumberInMonth y m d = w ∧
          data.completedDays.contains (dateKey y m d) = true) :=
    Finset.filter_congr (fun d _ => by simp [Bool.and_eq_true, beq_iff_eq])
  rw [hfil]

theorem specBucketCompletedCount_le (s : Data) (y m w : Nat) :
    specBucketCompletedCount s y m w ≤ specBucketSize y m w := by
  apply Finset.card_le_card
  intro x hx
  simp only [Finset.mem_filter] at hx ⊢
  exact ⟨hx.1, hx.2.1⟩

/-! ## Structural lemmas about `completeWorkout` -/

theorem completeWorkout_success (saveOk : Bool) (rnd : Nat) (s : Data)
    (y m d : Nat) : (completeWorkout saveOk rnd s y m d).2.success = true := by
  simp only [completeWorkout]
  split <;> rfl

theorem completeWorkout_weekCompleted (saveOk : Bool) (rnd : Nat) (s : Data)
    (y m d : Nat) :
    (completeWorkout saveOk rnd s y m d).2.weekCompleted
      = isWeekComplete
          { s with completedDays := addCompletedDay s.completedDays (dateKey y m d) }
          y m (getWeekNumberInMonth y m d) := by
  simp only [completeWorkout]
  split <;> rfl

theorem completeWorkout_completedDays (rnd : Nat) (s : Data) (y m d : Nat) :
    (completeWorkout true rnd s y m d).1.completedDays
      = addCompletedDay s.completedDays (dateKey y m d) := by
  simp only [completeWorkout, persist]
  split <;> rfl

theorem completeWorkout_minReward (rnd : Nat) (s : Data) (y m d : Nat) :
    (completeWorkout true rnd s y m d).1.minReward = s.minReward := by
  simp only [completeWorkout, persist]
  split <;> rfl

theorem completeWorkout_maxReward (rnd : Nat) (s : Data) (y m d : Nat) :
    (completeWorkout true rnd s y m d).1.maxReward = s.maxReward := by
  simp only [completeWorkout, persist]
  split <;> rfl

theorem completeWorkout_reward_some (rnd : Nat) (s : Data) (y m d : Nat)
    (r : Int) (h : (completeWorkout true rnd s y m d).2.reward = some r) :
    r = randomInt s.minReward s.maxReward rnd
    ∧ truthy (getk s.weeklyRewards (weekKey y m (getWeekNumberInMonth y m d))) = false
    ∧ (completeWorkout true rnd s y m d).1.weeklyRewards
        = setk s.weeklyRewards (weekKey y m (getWeekNumberInMonth y m d)) r
    ∧ (completeWorkout true rnd s y m d).1.movements
        = s.movements.map (fun mov =>
            if mov.members.contains "You" && isMovementActiveForDate mov y m d then
              contributeReward mov (weekKey y m (getWeekNumberInMonth y m d)) r
            else mov) := by
  simp only [completeWorkout, persist] at h ⊢
  split at h
  case isTrue hc =>
    have h2 : some (randomInt s.minReward s.maxReward rnd) = some r := h
    obtain rfl : randomInt s.minReward s.maxReward rnd = r := by injection h2
    have hfalse : truthy
        (getk s.weeklyRewards (weekKey y m (getWeekNumberInMonth y m d))) = false := by
      have hc2 := hc
      rw [Bool.and_eq_true] at hc2
      simpa using hc2.2
    refine ⟨rfl, hfalse, ?_, ?_⟩ <;> simp [hc]
  case isFalse hc =>
    simp at h

theorem completeWorkout_reward_none (rnd : Nat) (s : Data) (y m d : Nat)
    (h : (completeWorkout true rnd s y m d).2.reward = none) :
    (completeWorkout true rnd s y m d).1.weeklyRewards = s.weeklyRewards
    ∧ (completeWorkout true rnd s y m d).1.movements = s.movements := by
  simp only [completeWorkout, persist] at h ⊢
  split at h
  case isTrue hc => simp at h
  case isFalse hc => simp [hc]

theorem completeWorkout_rewarded_skips (rnd : Nat) (s : Data) (y m d : Nat)
    (v : Int) (hv : v ≠ 0)
    (h : getk s.weeklyRewards (weekKey y m (getWeekNumberInMonth y m d)) = some v) :
    (completeWorkout true rnd s y m d).2.reward = none
    ∧ (completeWorkout true rnd s y m d).1.weeklyRewards = s.weeklyRewards := by
  have ht : truthy (getk s.weeklyRewards (weekKey y m (getWeekNumberInMonth y m d)))
      = true := by
    rw [h]
    simpa [truthy] using hv
  simp [completeWorkout, persist, ht]

theorem randomInt_range (min max : Int) (rnd : Nat) (h : min ≤ max) :
    min ≤ randomInt min max rnd ∧ randomInt min max rnd ≤ max := by
  unfold randomInt
  have hspan : (0 : Int) < max - min + 1 := by omega
  have htn : ((max - min + 1).toNat : Int) = max - min + 1 :=
    Int.toNat_of_nonneg (le_of_lt hspan)
  have hlt : rnd % (max - min + 1).toNat < (max - min + 1).toNat :=
    Nat.mod_lt _ (by omega)
  have hlt2 : (Int.ofNat (rnd % (max - min + 1).toNat))
      < ((max - min + 1).toNat : Int) := Int.ofNat_lt.mpr hlt
  rw [htn] at hlt2
  have hge : (0 : Int) ≤ Int.ofNat (rnd % (max - min + 1).toNat) :=
    Int.ofNat_nonneg _
  omega

theorem randomInt_pos (min max : Int) (rnd : Nat) (h : 1 ≤ min) :
    0 < randomInt min max rnd := by
  unfold randomInt
  have hge : (0 : Int) ≤ Int.ofNat (rnd % (max - min + 1).toNat) :=
    Int.ofNat_nonneg _
  omega

/-! ## Reward-map evolution across calls -/

theorem completeWorkout_step_rewards (rnd : Nat) (s : Data) (y m d : Nat)
    (hpos : RewardsPositive s) (hmin : 1 ≤ s.minReward) :
    RewardsPositive (completeWorkout true rnd s y m d).1
    ∧ ∀ k v, getk s.weeklyRewards k = some v →
        getk (completeWorkout true rnd s y m d).1.weeklyRewards k = some v := by
  cases hr : (completeWorkout true rnd s y m d).2.reward with
  | none =>
    obtain ⟨hw, _⟩ := completeWorkout_reward_none rnd s y m d hr
    constructor
    · intro p hp
      rw [hw] at hp
      exact hpos p hp
    · intro k v h
      rw [hw]
      exact h
  | some r =>
    obtain ⟨hrv, hfalse, hw, _⟩ := completeWorkout_reward_some rnd s y m d r hr
    have hnone : getk s.weeklyRewards
        (weekKey y m (getWeekNumberInMonth y m d)) = none := by
      cases hg : getk s.weeklyRewards (weekKey y m (getWeekNumberInMonth y m d)) with
      | none => rfl
      | some v =>
        have hvpos := hpos _ (getk_mem _ _ _ hg)
        rw [hg] at hfalse
        simp only [truthy, bne_eq_false_iff_eq] at hfalse
        omega
    constructor
    · intro p hp
      rw [hw] at hp
      rcases mem_setk _ _ _ _ hp with h1 | h1
      · rw [h1]
        rw [hrv]
        exact randomInt_pos _ _ _ hmin
      · exact hpos p h1
    · intro k v h
      rw [hw]
      by_cases hk : k = weekKey y m (getWeekNumberInMonth y m d)
      · rw [hk] at h
        rw [h] at hnone
        cases hnone
      · rw [getk_setk_ne _ _ _ _ hk]
        exact h

theorem runWorkouts_append (s : Data) (l1 l2 : List (Nat × Nat × Nat × Nat)) :
    runWorkouts s (l1 ++ l2) = runWorkouts (runWorkouts s l1) l2 := by
  induction l1 generalizing s with
  | nil => rfl
  | cons c rest ih =>
    obtain ⟨y, m, d, rnd⟩ := c
    simp only [List.cons_append, runWorkouts]
    exact ih _

theorem runWorkouts_inv (l : List (Nat × Nat × Nat × Nat)) :
    ∀ s : Data, RewardsPositive s → 1 ≤ s.minReward →
      RewardsPositive (runWorkouts s l)
      ∧ 1 ≤ (runWorkouts s l).minReward
      ∧ ∀ k v, getk s.weeklyRewards k = some v →
          getk (runWorkouts s l).weeklyRewards k = some v := by
  induction l with
  | nil => exact fun s hpos hmin => ⟨hpos, hmin, fun k v h => h⟩
  | cons c rest ih =>
    intro s hpos hmin
    obtain ⟨y, m, d, rnd⟩ := c
    obtain ⟨hpos2, hmono⟩ := completeWorkout_step_rewards rnd s y m d hpos hmin
    have hmin2 : 1 ≤ (completeWorkout true rnd s y m d).1.minReward := by
      rw [completeWorkout_minReward]
      exact hmin
    obtain ⟨ha, hb, hmono2⟩ := ih (completeWorkout true rnd s y m d).1 hpos2 hmin2
    exact ⟨ha, hb, fun k v h => hmono2 k v (hmono k v h)⟩

/-! ## Concrete sample documents -/

/-- A sample document: six completed days of week 2 of January 2026
(January 1, 2026 is a Thursday, so week 2 spans days 4–10) with the default
reward range `[1, 5]`. -/
def sixDayState : Data :=
  { completedDays := [dateKey 2026 1 4, dateKey 2026 1 5, dateKey 2026 1 6,
      dateKey 2026 1 7, dateKey 2026 1 8, dateKey 2026 1 9]
  , weeklyRewards := []
  , minReward := 1
  , maxReward := 5
  , friends := []
  , movements := []
  , cheers := []
  , inviteCode := "WALKJKL234"
  , unlockedBadges := [] }

/-- The sample document with the reward floor lowered to `0` (a state the
data-model invariant of §3 excludes but the claim's stated precondition
admits). -/
def zeroFloorState : Data := { sixDayState with minReward := 0 }

/-! ## Claim C1 -/

/-- **C1** (amended): for every week key `k` and every sequence of
`completeWorkout` calls starting from a state where all stored
`weeklyRewards` values are positive and the reward bounds satisfy
`1 ≤ minReward ≤ maxReward`, `weeklyRewards[k]` is assigned at most once and
once assigned never changes; a call for a date in an already-rewarded week
returns `reward = null` and leaves `weeklyRewards` unchanged. -/
theorem weeklyRewards_write_once (s : Data) (k : String)
    (hpos : RewardsPositive s) (hmin : 1 ≤ s.minReward)
    (hmax : s.minReward ≤ s.maxReward) :
    (∀ calls1 calls2 v,
      getk (runWorkouts s calls1).weeklyRewards k = some v →
      getk (runWorkouts s (calls1 ++ calls2)).weeklyRewards k = some v)
    ∧ (∀ y m d rnd v,
        getk s.weeklyRewards (weekKey y m (getWeekNumberInMonth y m d)) = some v →
        (completeWorkout true rnd s y m d).2.reward = none
        ∧ (completeWorkout true rnd s y m d).1.weeklyRewards = s.weeklyRewards) := by
  constructor
  · intro calls1 calls2 v h
    rw [runWorkouts_append]
    obtain ⟨hp1, hm1, _⟩ := runWorkouts_inv calls1 s hpos hmin
    obtain ⟨_, _, hmono⟩ := runWorkouts_inv calls2 _ hp1 hm1
    exact hmono k v h
  · intro y m d rnd v h
    have hv : v ≠ 0 := by
      have := hpos _ (getk_mem _ _ _ h)
      omega
    exact completeWorkout_rewarded_skips rnd s y m d v hv h

/-- Witness for C1: from the six-day sample, the call for January 10 fixes
`weeklyRewards["2026-1-week2"] = 3`, and a later call for January 4 (same
week) leaves it at 3. -/
theorem weeklyRewards_write_once_witness :
    getk (runWorkouts sixDayState
        ([(2026, 1, 10, 2)] ++ [(2026, 1, 4, 0)])).weeklyRewards
      (weekKey 2026 1 2) = some 3 :=
  (weeklyRewards_write_once sixDayState (weekKey 2026 1 2)
      (by decide) (by decide) (by decide)).1
    [(2026, 1, 10, 2)] [(2026, 1, 4, 0)] 3 (by decide)

/-- **C1 counterexample** (refuting the claim as stated): `zeroFloorState`
satisfies the claim's stated precondition (all stored `weeklyRewards` values
are vacuously positive), yet the week key `2026-1-week2` is assigned twice
with two different values across two `completeWorkout` calls — the first
draw from the range `[0, 5]` stores the falsy reward `0`, which fails the
truthiness guard on the second call and is overwritten. -/
theorem weeklyRewards_write_once_counterexample :
    RewardsPositive zeroFloorState
    ∧ getk (runWorkouts zeroFloorState [(2026, 1, 10, 0)]).weeklyRewards
        (weekKey 2026 1 2) = some 0
    ∧ getk (runWorkouts zeroFloorState
          [(2026, 1, 10, 0), (2026, 1, 10, 3)]).weeklyRewards
        (weekKey 2026 1 2) = some 3 :=
  ⟨by decide, by decide, by decide⟩

/-! ## Claim C2 -/

theorem specBucketCompletedCount_congr (s1 s2 : Data) (y m w : Nat)
    (h : s1.completedDays = s2.completedDays) :
    specBucketCompletedCount s1 y m w = specBucketCompletedCount s2 y m w := by
  unfold specBucketCompletedCount
  rw [h]

/-- **C2**: `completeWorkout(d)` reports `weekCompleted = true` iff at least
7 distinct completed dates of `d`'s month fall in `d`'s week bucket (week
number `ceil((firstWeekdayOfMonth + dayOfMonth) / 7)`), so a week bucket
containing fewer than 7 calendar days never completes. -/
theorem weekCompleted_iff_seven_bucket_days (s : Data) (y m d rnd : Nat) :
    ((completeWorkout true rnd s y m d).2.weekCompleted = true ↔
      7 ≤ specBucketCompletedCount (completeWorkout true rnd s y m d).1 y m
        (getWeekNumberInMonth y m d))
    ∧ (specBucketSize y m (getWeekNumberInMonth y m d) < 7 →
        (completeWorkout true rnd s y m d).2.weekCompleted = false) := by
  have hcd := completeWorkout_completedDays rnd s y m d
  have hwc := completeWorkout_weekCompleted true rnd s y m d
  have hcc : specBucketCompletedCount
        { s with completedDays := addCompletedDay s.completedDays (dateKey y m d) }
        y m (getWeekNumberInMonth y m d)
      = specBucketCompletedCount (completeWorkout true rnd s y m d).1 y m
        (getWeekNumberInMonth y m d) :=
    specBucketCompletedCount_congr _ _ _ _ _ (by rw [hcd])
  constructor
  · rw [hwc, isWeekComplete_iff, hcc]
  · intro hlt
    rw [hwc]
    cases h2 : isWeekComplete
        { s with completedDays := addCompletedDay s.completedDays (dateKey y m d) }
        y m (getWeekNumberInMonth y m d) with
    | false => rfl
    | true =>
      have h3 := (isWeekComplete_iff _ _ _ _).mp h2
      have hle := specBucketCompletedCount_le
        { s with completedDays := addCompletedDay s.completedDays (dateKey y m d) }
        y m (getWeekNumberInMonth y m d)
      omega

/-- Witness for C2: January 2026 starts on a Thursday, so week bucket 1 holds
only 3 calendar days; completing January 2 can never complete its week. -/
theorem weekCompleted_iff_seven_bucket_days_witness :
    (completeWorkout true 0 sixDayState 2026 1 2).2.weekCompleted = false :=
  (weekCompleted_iff_seven_bucket_days sixDayState 2026 1 2 0).2 (by decide)

/-! ## Claim C3 -/

/-- **C3** (amended): a failing backing-store write during `completeWorkout`
is swallowed, not propagated: `storage.set` catches the exception and
returns `false`, `saveData` discards that result, and `completeWorkout`
still returns `success = true`; the persisted store is left unchanged. -/
theorem completeWorkout_write_failure_swallowed (rnd : Nat) (s : Data)
    (y m d : Nat) :
    (completeWorkout false rnd s y m d).2.success = true
    ∧ (completeWorkout false rnd s y m d).1 = s := by
  constructor
  · exact completeWorkout_success false rnd s y m d
  · simp only [completeWorkout, persist]
    split <;> rfl

/-- **C3 counterexample**: at a concrete state and date, with the
backing-store write failing, the structured result of `completeWorkout`
still reports success — refuting the claim that the failure surfaces as a
failed result. -/
theorem completeWorkout_write_failure_counterexample :
    (completeWorkout false 0 sixDayState 2026 1 5).2.success = true := by
  decide

/-! ## Claim C4 -/

/-- **C4**: with bounds `1 ≤ minReward ≤ maxReward`, every reward issued by
`completeWorkout` lies within `[minReward, maxReward]`; consequently every
stored `weeklyRewards` value remains a positive integer. -/
theorem reward_within_range (s : Data) (y m d rnd : Nat)
    (hmin : 1 ≤ s.minReward) (hmax : s.minReward ≤ s.maxReward) :
    (∀ r, (completeWorkout true rnd s y m d).2.reward = some r →
      s.minReward ≤ r ∧ r ≤ s.maxReward)
    ∧ (RewardsPositive s → RewardsPositive (completeWorkout true rnd s y m d).1) := by
  constructor
  · intro r hr
    obtain ⟨hrv, _, _, _⟩ := completeWorkout_reward_some rnd s y m d r hr
    rw [hrv]
    exact randomInt_range _ _ _ hmax
  · intro hpos
    exact (completeWorkout_step_rewards rnd s y m d hpos hmin).1

/-- Witness for C4: the reward `3` issued on completing January 10 from the
six-day sample lies within the configured range `[1, 5]`. -/
theorem reward_within_range_witness :
    sixDayState.minReward ≤ 3 ∧ (3 : Int) ≤ sixDayState.maxReward :=
  (reward_within_range sixDayState 2026 1 10 2 (by decide) (by decide)).1
    3 (by decide)

/-! ## Claim C5 -/

/-- A sample movement the local user belongs to, active through January
2026. -/
def sampleMovement : Movement :=
  { id := 1700000000000
  , name := "Steps for Shelter"
  , charity := "Shelter Fund"
  , description := "Walk every day through January."
  , startDate := ⟨2025, 12, 1⟩
  , endDate := ⟨2026, 2, 1⟩
  , creator := "You"
  , members := ["You"]
  , totalRaised := 0
  , weeklyContributions := []
  , createdAt := 1700000000000 }

/-- A movement the local user belongs to whose window opens only after the
completed date. -/
def futureMovement : Movement :=
  { sampleMovement with
    id := 1700000000001
  , name := "Spring Sprint"
  , startDate := ⟨2026, 3, 1⟩
  , endDate := ⟨2026, 4, 1⟩ }

/-- The six-day sample document extended with the two sample movements. -/
def movementState : Data :=
  { sixDayState with movements := [sampleMovement, futureMovement] }

/-- **C5**: when a `completeWorkout(d)` call issues a new reward `r`, each
movement gains exactly `r` in both `weeklyContributions[weekKey]` and
`totalRaised` when the local user is a member and the movement's window
contains `d` (evaluated against `d`, not the clock), and is untouched
otherwise; in particular a movement whose `startDate` lies after `d`
receives nothing even when the user is a member. -/
theorem reward_fanout (s : Data) (y m d rnd : Nat) (r : Int)
    (hr : (completeWorkout true rnd s y m d).2.reward = some r) :
    (completeWorkout true rnd s y m d).1.movements.length = s.movements.length
    ∧ ∀ i (hi : i < s.movements.length)
        (hi2 : i < (completeWorkout true rnd s y m d).1.movements.length),
        ((s.movements.get ⟨i, hi⟩).members.contains "You" = true ∧
            isMovementActiveForDate (s.movements.get ⟨i, hi⟩) y m d = true →
          ((completeWorkout true rnd s y m d).1.movements.get ⟨i, hi2⟩).totalRaised
              = (s.movements.get ⟨i, hi⟩).totalRaised + r
          ∧ getk ((completeWorkout true rnd s y m d).1.movements.get
                  ⟨i, hi2⟩).weeklyContributions
                (weekKey y m (getWeekNumberInMonth y m d))
              = some ((getk (s.movements.get ⟨i, hi⟩).weeklyContributions
                  (weekKey y m (getWeekNumberInMonth y m d))).getD 0 + r))
        ∧ (¬((s.movements.get ⟨i, hi⟩).members.contains "You" = true ∧
              isMovementActiveForDate (s.movements.get ⟨i, hi⟩) y m d = true) →
            (completeWorkout true rnd s y m d).1.movements.get ⟨i, hi2⟩
              = s.movements.get ⟨i, hi⟩)
        ∧ (Date.code ⟨y, m, d⟩ < (s.movements.get ⟨i, hi⟩).startDate.code →
            (completeWorkout true rnd s y m d).1.movements.get ⟨i, hi2⟩
              = s.movements.get ⟨i, hi⟩) := by
  obtain ⟨_, _, _, hm⟩ := completeWorkout_reward_some rnd s y m d r hr
  constructor
  · rw [hm, List.length_map]
  · intro i hi hi2
    have hget : (completeWorkout true rnd s y m d).1.movements.get ⟨i, hi2⟩
        = (if (s.movements.get ⟨i, hi⟩).members.contains "You" &&
              isMovementActiveForDate (s.movements.get ⟨i, hi⟩) y m d then
            contributeReward (s.movements.get ⟨i, hi⟩)
              (weekKey y m (getWeekNumberInMonth y m d)) r
          else s.movements.get ⟨i, hi⟩) := by
      rw [List.get_eq_getElem, List.get_eq_getElem]
      simp only [hm, List.getElem_map]
    refine ⟨?_, ?_, ?_⟩
    · intro hcond
      rw [hget, if_pos (Bool.and_eq_true _ _ ▸ hcond)]
      exact ⟨rfl, contributeReward_getk _ _ r⟩
    · intro hcond
      have hc : ((s.movements.get ⟨i, hi⟩).members.contains "You" &&
          isMovementActiveForDate (s.movements.get ⟨i, hi⟩) y m d) = false := by
        cases hA : (s.movements.get ⟨i, hi⟩).members.contains "You" <;>
          cases hB : isMovementActiveForDate (s.movements.get ⟨i, hi⟩) y m d <;>
          simp_all
      rw [hget, if_neg (by rw [hc]; exact Bool.false_ne_true)]
    · intro hstart
      have hB : isMovementActiveForDate (s.movements.get ⟨i, hi⟩) y m d = false := by
        have hns : ¬((s.movements.get ⟨i, hi⟩).startDate.code
            ≤ Date.code ⟨y, m, d⟩) := by omega
        have hns2 : ¬(s.movements[i].startDate.code ≤ Date.code ⟨y, m, d⟩) := hns
        simp only [isMovementActiveForDate]
        simp [hns2]
      rw [hget, if_neg (by rw [hB, Bool.and_false]; exact Bool.false_ne_true)]

/-- Witness for C5: completing January 10 from the movement sample issues
reward 3, and the active member movement's running total grows by exactly
3. -/
theorem reward_fanout_witness :
    ((completeWorkout true 2 movementState 2026 1 10).1.movements.get
        ⟨0, by decide⟩).totalRaised
      = (movementState.movements.get ⟨0, by decide⟩).totalRaised + 3 :=
  (((reward_fanout movementState 2026 1 10 2 3 (by decide)).2 0 (by decide)
      (by decide)).1 (by decide)).1

/-! ## Claim C6 -/

theorem updateFirstMovement_pres (P : Movement → Prop) (movementId : Nat)
    (f : Movement → Movement) :
    ∀ l : List Movement, (∀ mov ∈ l, P mov) → (∀ mov ∈ l, P (f mov)) →
      ∀ mov ∈ updateFirstMovement movementId f l, P mov := by
  intro l
  induction l with
  | nil =>
    intro _ _ mov h
    simp [updateFirstMovement] at h
  | cons q rest ih =>
    intro hl hf mov h
    simp only [updateFirstMovement] at h
    by_cases hq : (q.id == movementId) = true
    · rw [if_pos hq, List.mem_cons] at h
      rcases h with h | h
      · exact h ▸ hf q (List.mem_cons_self q rest)
      · exact hl mov (List.mem_cons_of_mem q h)
    · rw [if_neg hq, List.mem_cons] at h
      rcases h with h | h
      · exact h ▸ hl q (List.mem_cons_self q rest)
      · exact ih (fun mv hm => hl mv (List.mem_cons_of_mem q hm))
          (fun mv hm => hf mv (List.mem_cons_of_mem q hm)) mov h

theorem checkAndUnlockBadges_movements (saveOk : Bool) (s : Data) :
    (checkAndUnlockBadges saveOk s).1.movements = s.movements := by
  simp only [checkAndUnlockBadges, persist]
  split
  · split <;> rfl
  · rfl

theorem createMovement_totals (now : Nat) (s : Data)
    (name charity description : String) (sd ed : Date)
    (h : MovementTotalsOk s) :
    MovementTotalsOk (createMovement true now s name charity description sd ed).1 := by
  simp only [createMovement]
  split
  · exact h
  · split
    · exact h
    · split
      · exact h
      · split
        · exact h
        · intro mov hmov
          rw [checkAndUnlockBadges_movements] at hmov
          have hmov2 : mov ∈ s.movements
              ++ [(⟨now, name, charity, description, sd, ed,
                  "You", ["You"], 0, [], now⟩ : Movement)] := hmov
          rcases List.mem_append.mp hmov2 with h1 | h1
          · exact h mov h1
          · rw [List.mem_singleton] at h1
            rw [h1]
            rfl

theorem joinMovement_totals (s : Data) (movementId : Nat)
    (h : MovementTotalsOk s) :
    MovementTotalsOk (joinMovement true s movementId).1 := by
  simp only [joinMovement]
  cases hfind : findMovement s movementId with
  | none => exact h
  | some mov =>
    dsimp only
    by_cases hmem : (mov.members.contains "You") = true
    · rw [if_pos hmem]
      exact h
    · rw [if_neg hmem]
      intro mv hm
      have hm2 : mv ∈ updateFirstMovement movementId
          (fun m => { m with members := m.members ++ ["You"] }) s.movements := hm
      exact updateFirstMovement_pres _ movementId
        (fun m => { m with members := m.members ++ ["You"] }) s.movements h
        (fun mv0 hm0 => h mv0 hm0) mv hm2

theorem leaveMovement_totals (s : Data) (movementId : Nat)
    (h : MovementTotalsOk s) :
    MovementTotalsOk (leaveMovement true s movementId).1 := by
  simp only [leaveMovement]
  cases hfind : findMovement s movementId with
  | none => exact h
  | some mov =>
    dsimp only
    by_cases hmem : (!(mov.members.contains "You")) = true
    · rw [if_pos hmem]
      exact h
    · rw [if_neg hmem]
      intro mv hm
      have hm2 : mv ∈ updateFirstMovement movementId
          (fun m => { m with members := m.members.erase "You" }) s.movements := hm
      exact updateFirstMovement_pres _ movementId
        (fun m => { m with members := m.members.erase "You" }) s.movements h
        (fun mv0 hm0 => h mv0 hm0) mv hm2

theorem completeWorkout_totals (rnd : Nat) (s : Data) (y m d : Nat)
    (h : MovementTotalsOk s) :
    MovementTotalsOk (completeWorkout true rnd s y m d).1 := by
  cases hr : (completeWorkout true rnd s y m d).2.reward with
  | none =>
    obtain ⟨_, hmv⟩ := completeWorkout_reward_none rnd s y m d hr
    intro mov hm
    rw [hmv] at hm
    exact h mov hm
  | some r =>
    obtain ⟨_, _, _, hmv⟩ := completeWorkout_reward_some rnd s y m d r hr
    intro mov hm
    rw [hmv] at hm
    rcases List.mem_map.mp hm with ⟨mov0, hmem, heq⟩
    by_cases hc : (mov0.members.contains "You" &&
        isMovementActiveForDate mov0 y m d) = true
    · rw [← heq, if_pos hc]
      exact contributeReward_totals mov0 _ r (h mov0 hmem)
    · rw [← heq, if_neg hc]
      exact h mov0 hmem

theorem addMovementContribution_totals (s : Data) (movementId : Nat)
    (wk : String) (amount : Int) (h : MovementTotalsOk s) :
    MovementTotalsOk (addMovementContribution true s movementId wk amount) := by
  simp only [addMovementContribution]
  cases hfind : findMovement s movementId with
  | none => exact h
  | some mov =>
    dsimp only
    by_cases hmem : (!(mov.members.contains "You")) = true
    · rw [if_pos hmem]
      exact h
    · rw [if_neg hmem]
      intro mv hm
      have hm2 : mv ∈ updateFirstMovement movementId
          (fun m => contributeReward m wk amount) s.movements := hm
      exact updateFirstMovement_pres _ movementId
        (fun m => contributeReward m wk amount) s.movements h
        (fun mv0 hm0 => contributeReward_totals mv0 wk amount (h mv0 hm0)) mv hm2

/-- **C6**: the invariant `totalRaised == sum(weeklyContributions.values())`
is preserved by every mutating operation — `createMovement`, `joinMovement`,
`leaveMovement`, `completeWorkout` and `addMovementContribution` — whenever
it held beforehand. -/
theorem movement_totals_invariant (s : Data) (h : MovementTotalsOk s) :
    (∀ now name charity description sd ed,
      MovementTotalsOk (createMovement true now s name charity description sd ed).1)
    ∧ (∀ movementId, MovementTotalsOk (joinMovement true s movementId).1)
    ∧ (∀ movementId, MovementTotalsOk (leaveMovement true s movementId).1)
    ∧ (∀ y m d rnd, MovementTotalsOk (completeWorkout true rnd s y m d).1)
    ∧ (∀ movementId wk amount,
        MovementTotalsOk (addMovementContribution true s movementId wk amount)) :=
  ⟨fun now name charity description sd ed =>
      createMovement_totals now s name charity description sd ed h,
   fun movementId => joinMovement_totals s movementId h,
   fun movementId => leaveMovement_totals s movementId h,
   fun y m d rnd => completeWorkout_totals rnd s y m d h,
   fun movementId wk amount =>
      addMovementContribution_totals s movementId wk amount h⟩

/-- Witness for C6: adding a contribution of 4 to the sample movement keeps
its running total equal to the sum of its weekly contributions. -/
theorem movement_totals_invariant_witness :
    MovementTotalsOk
      (addMovementContribution true movementState 1700000000000
        (weekKey 2026 1 2) 4) :=
  (movement_totals_invariant movementState (by decide)).2.2.2.2
    1700000000000 (weekKey 2026 1 2) 4

/-! ## Claim C7 -/

/-- **C7**: `updateRewardRange(min, max)` returns `false` and leaves the
entire stored document unchanged when `min > max` or `min < 1`; otherwise it
returns `true` and persists exactly the new bounds, all other fields —
`weeklyRewards` included — unchanged. -/
theorem updateRewardRange_spec (s : Data) (min max : Int) :
    (min > max ∨ min < 1 → updateRewardRange true s min max = (s, false))
    ∧ (¬(min > max ∨ min < 1) →
        updateRewardRange true s min max
          = ({ s with minReward := min, maxReward := max }, true)) := by
  constructor
  · intro h
    simp only [updateRewardRange]
    rw [if_pos h]
  · intro h
    simp only [updateRewardRange]
    rw [if_neg h]
    rfl

/-- Witness for C7: `updateRewardRange(5, 1)` fails leaving the document
unchanged, and `updateRewardRange(2, 4)` succeeds recording only the new
bounds. -/
theorem updateRewardRange_spec_witness :
    updateRewardRange true sixDayState 5 1 = (sixDayState, false)
    ∧ updateRewardRange true sixDayState 2 4
        = ({ sixDayState with minReward := 2, maxReward := 4 }, true) :=
  ⟨(updateRewardRange_spec sixDayState 5 1).1 (by decide),
   (updateRewardRange_spec sixDayState 2 4).2 (by decide)⟩

/-! ## Claim C8 -/

theorem unlockPass_mono (p : Progress) (bs : List Badge) :
    ∀ u k, k ∈ u → k ∈ (unlockPass p bs u).1 := by
  induction bs with
  | nil => exact fun u k h => h
  | cons b rest ih =>
    intro u k h
    simp only [unlockPass]
    split
    · exact ih u k h
    · split
      · exact ih (u ++ [b.id]) k (List.mem_append_left _ h)
      · exact ih u k h

theorem unlockPass_complete (p : Progress) (bs : List Badge) :
    ∀ u b, b ∈ bs → shouldUnlockBadge b p = true →
      b.id ∈ (unlockPass p bs u).1 := by
  induction bs with
  | nil =>
    intro u b h
    simp at h
  | cons b0 rest ih =>
    intro u b hb hs
    rw [List.mem_cons] at hb
    simp only [unlockPass]
    split
    case isTrue hc =>
      rcases hb with hb | hb
      · have hm : b0.id ∈ u := by simpa using hc
        exact hb ▸ unlockPass_mono p rest u b0.id hm
      · exact ih u b hb hs
    case isFalse hc =>
      split
      case isTrue hs0 =>
        rcases hb with hb | hb
        · rw [hb]
          exact unlockPass_mono p rest _ b0.id
            (List.mem_append_right _ (List.mem_singleton.mpr rfl))
        · exact ih _ b hb hs
      case isFalse hs0 =>
        rcases hb with hb | hb
        · exact absurd (hb ▸ hs) hs0
        · exact ih u b hb hs

theorem unlockPass_stable (p : Progress) (bs : List Badge) :
    ∀ u, (∀ b ∈ bs, b.id ∈ u ∨ shouldUnlockBadge b p = false) →
      unlockPass p bs u = (u, []) := by
  induction bs with
  | nil => intro u _; rfl
  | cons b0 rest ih =>
    intro u hall
    simp only [unlockPass]
    by_cases hc : (u.contains b0.id) = true
    · rw [if_pos hc]
      exact ih u (fun b hb => hall b (List.mem_cons_of_mem _ hb))
    · rcases hall b0 (List.mem_cons_self b0 rest) with h | h
      · exact absurd (by simpa using h) hc
      · rw [if_neg hc, if_neg (by rw [h]; exact Bool.false_ne_true)]
        exact ih u (fun b hb => hall b (List.mem_cons_of_mem _ hb))

theorem unlockPass_newly_nil (p : Progress) (bs : List Badge) :
    ∀ u, (unlockPass p bs u).2 = [] → (unlockPass p bs u).1 = u := by
  induction bs with
  | nil => intro u _; rfl
  | cons b0 rest ih =>
    intro u h
    simp only [unlockPass] at h ⊢
    by_cases hc : (u.contains b0.id) = true
    · rw [if_pos hc] at h ⊢
      exact ih u h
    · rw [if_neg hc] at h ⊢
      by_cases hs : shouldUnlockBadge b0 p = true
      · rw [if_pos hs] at h
        exact absurd h (by simp)
      · rw [if_neg hs] at h ⊢
        exact ih u h

/-- **C8**: `checkAndUnlockBadges` is idempotent — an immediately repeated
call with no intervening mutation unlocks nothing new and leaves the stored
document (in particular `unlockedBadges`) unchanged. -/
theorem checkAndUnlockBadges_idempotent (s : Data) :
    (checkAndUnlockBadges true (checkAndUnlockBadges true s).1).2 = []
    ∧ (checkAndUnlockBadges true (checkAndUnlockBadges true s).1).1
        = (checkAndUnlockBadges true s).1 := by
  have hall : ∀ b ∈ BADGE_DEFINITIONS,
      b.id ∈ (unlockPass (getCurrentProgress s) BADGE_DEFINITIONS
        s.unlockedBadges).1
      ∨ shouldUnlockBadge b (getCurrentProgress s) = false := by
    intro b hb
    by_cases hs : shouldUnlockBadge b (getCurrentProgress s) = true
    · exact Or.inl (unlockPass_complete (getCurrentProgress s) BADGE_DEFINITIONS
        s.unlockedBadges b hb hs)
    · exact Or.inr (by simpa using hs)
  by_cases hlen : (unlockPass (getCurrentProgress s) BADGE_DEFINITIONS
      s.unlockedBadges).2.length > 0
  · have h1 : (checkAndUnlockBadges true s).1
        = { s with unlockedBadges :=
            (unlockPass (getCurrentProgress s) BADGE_DEFINITIONS
              s.unlockedBadges).1 } := by
      simp only [checkAndUnlockBadges, persist]
      rw [if_pos hlen]
      rfl
    have hp2 : getCurrentProgress
        { s with unlockedBadges :=
            (unlockPass (getCurrentProgress s) BADGE_DEFINITIONS
              s.unlockedBadges).1 }
        = getCurrentProgress s := rfl
    have h2 : unlockPass (getCurrentProgress s) BADGE_DEFINITIONS
        (unlockPass (getCurrentProgress s) BADGE_DEFINITIONS
          s.unlockedBadges).1
        = ((unlockPass (getCurrentProgress s) BADGE_DEFINITIONS
            s.unlockedBadges).1, []) :=
      unlockPass_stable (getCurrentProgress s) BADGE_DEFINITIONS _ hall
    rw [h1]
    simp only [checkAndUnlockBadges, hp2, h2]
    simp
  · have hnil : (unlockPass (getCurrentProgress s) BADGE_DEFINITIONS
        s.unlockedBadges).2 = [] := by
      rw [← List.length_eq_zero]
      omega
    have h1 : (checkAndUnlockBadges true s).1 = s := by
      simp only [checkAndUnlockBadges]
      rw [if_neg hlen]
    rw [h1]
    constructor
    · simp only [checkAndUnlockBadges]
      rw [if_neg hlen]
      exact hnil
    · exact h1

/-! ## Claim C9 -/

theorem length_insertSorted (a : String) (l : List String) :
    (insertSorted a l).length = l.length + 1 := by
  induction l with
  | nil => rfl
  | cons b bs ih =>
    simp only [insertSorted]
    split
    · simp
    · simp [ih]

theorem mem_insertSorted (a : String) (l : List String) (k : String) :
    k ∈ insertSorted a l ↔ k = a ∨ k ∈ l := by
  induction l with
  | nil => simp [insertSorted]
  | cons b bs ih =>
    simp only [insertSorted]
    split
    · simp [List.mem_cons]
    · rw [List.mem_cons, ih, List.mem_cons]
      tauto

theorem length_sortKeysAsc (l : List String) :
    (sortKeysAsc l).length = l.length := by
  induction l with
  | nil => rfl
  | cons a as ih =>
    simp only [sortKeysAsc, List.foldr_cons] at ih ⊢
    rw [length_insertSorted, ih]
    rfl

theorem mem_sortKeysAsc (l : List String) (k : String) :
    k ∈ sortKeysAsc l ↔ k ∈ l := by
  induction l with
  | nil => simp [sortKeysAsc]
  | cons a as ih =>
    simp only [sortKeysAsc, List.foldr_cons] at ih ⊢
    rw [mem_insertSorted, ih, List.mem_cons]

theorem streakScan_all (m : Dict) (l : List String)
    (h : ∀ k ∈ l, truthy (getk m k) = true) : streakScan m l = l.length := by
  induction l with
  | nil => rfl
  | cons k ks ih =>
    simp only [streakScan]
    rw [if_pos (h k (List.mem_cons_self k ks)),
      ih (fun k2 hk2 => h k2 (List.mem_cons_of_mem _ hk2))]
    rfl

/-- **C9**: when every stored weekly reward is positive (hence truthy), the
descending scan-and-break computation of `getCurrentStreak` equals the plain
key count of `weeklyRewards` — the streak and weeks metrics coincide. -/
theorem streak_equals_weeks (s : Data) (hpos : RewardsPositive s) :
    getCurrentStreak s = s.weeklyRewards.length
    ∧ (getCurrentProgress s).streak = (getCurrentProgress s).weeks := by
  have hall : ∀ k ∈ (sortKeysAsc (s.weeklyRewards.map Prod.fst)).reverse,
      truthy (getk s.weeklyRewards k) = true := by
    intro k hk
    rw [List.mem_reverse, mem_sortKeysAsc] at hk
    obtain ⟨v, hv⟩ := getk_isSome_of_mem_keys _ _ hk
    have hvpos := hpos _ (getk_mem _ _ _ hv)
    rw [hv]
    simp only [truthy, bne_iff_ne, ne_eq]
    omega
  have h1 : getCurrentStreak s = s.weeklyRewards.length := by
    unfold getCurrentStreak
    rw [streakScan_all _ _ hall, List.length_reverse, length_sortKeysAsc,
      List.length_map]
  refine ⟨h1, ?_⟩
  simp only [getCurrentProgress]
  rw [h1]

/-- A sample document holding two positive weekly rewards. -/
def twoRewardState : Data :=
  { sixDayState with
    weeklyRewards := [(weekKey 2025 12 4, 2), (weekKey 2026 1 2, 3)] }

/-- Witness for C9: with two positive stored rewards the streak is exactly
the key count, 2. -/
theorem streak_equals_weeks_witness :
    getCurrentStreak twoRewardState = twoRewardState.weeklyRewards.length :=
  (streak_equals_weeks twoRewardState (by decide)).1

/-! ## Claim C10 -/

theorem count_erase_le (l : List String) (a x : String) :
    (l.erase a).count x ≤ l.count x :=
  (List.erase_sublist a l).count_le x

theorem count_append_you (l : List String) (h : l.contains "You" = false) :
    (l ++ ["You"]).count "You" ≤ 1 := by
  have hz : l.count "You" = 0 := List.count_eq_zero.mpr (by simpa using h)
  rw [List.count_append, hz]
  simp

theorem updateFirst_join_once (movementId : Nat) :
    ∀ (l : List Movement) (mov : Movement),
      (∀ m2 ∈ l, m2.members.count "You" ≤ 1) →
      l.find? (fun m => m.id == movementId) = some mov →
      mov.members.contains "You" = false →
      ∀ m2 ∈ updateFirstMovement movementId
          (fun m => { m with members := m.members ++ ["You"] }) l,
        m2.members.count "You" ≤ 1 := by
  intro l
  induction l with
  | nil =>
    intro mov _ hfind
    simp [List.find?] at hfind
  | cons q rest ih =>
    intro mov hl hfind hmem m2 hm2
    simp only [updateFirstMovement] at hm2
    by_cases hq : (q.id == movementId) = true
    · have hfq : q = mov := by
        simp only [List.find?, hq] at hfind
        injection hfind
      rw [if_pos hq, List.mem_cons] at hm2
      rcases hm2 with hm2 | hm2
      · rw [hm2]
        show (q.members ++ ["You"]).count "You" ≤ 1
        exact count_append_you q.members (hfq ▸ hmem)
      · exact hl m2 (List.mem_cons_of_mem q hm2)
    · have hqf : (q.id == movementId) = false := by
        revert hq
        cases q.id == movementId <;> simp
      rw [if_neg hq, List.mem_cons] at hm2
      rcases hm2 with hm2 | hm2
      · exact hm2 ▸ hl q (List.mem_cons_self q rest)
      · have hfind2 : rest.find? (fun m => m.id == movementId) = some mov := by
          simp only [List.find?, hqf] at hfind
          exact hfind
        exact ih mov (fun m3 hm3 => hl m3 (List.mem_cons_of_mem q hm3))
          hfind2 hmem m2 hm2

/-- **C10**: every reachable movement names the local user `'You'` at most
once among its members: `createMovement` initialises `members` to exactly
`['You']`, `joinMovement` appends `'You'` only when absent and otherwise
returns `false` without touching the store, and no embedded operation adds
members — so one reward fan-out credits each movement at most once. -/
theorem members_you_at_most_once (s : Data) :
    (∀ now name charity description sd ed mov,
      (createMovement true now s name charity description sd ed).2.movement
        = some mov → mov.members = ["You"])
    ∧ (∀ movementId mov, findMovement s movementId = some mov →
        mov.members.contains "You" = true →
        joinMovement true s movementId = (s, false))
    ∧ (MembersOnce s →
        (∀ now name charity description sd ed,
          MembersOnce (createMovement true now s name charity description sd ed).1)
        ∧ (∀ movementId, MembersOnce (joinMovement true s movementId).1)
        ∧ (∀ movementId, MembersOnce (leaveMovement true s movementId).1)
        ∧ (∀ y m d rnd, MembersOnce (completeWorkout true rnd s y m d).1)
        ∧ (∀ movementId wk amount,
            MembersOnce (addMovementContribution true s movementId wk amount))) := by
  refine ⟨?_, ?_, ?_⟩
  · intro now name charity description sd ed mov h
    simp only [createMovement] at h
    split at h
    · simp at h
    · split at h
      · simp at h
      · split at h
        · simp at h
        · split at h
          · simp at h
          · have h2 : some (⟨now, name, charity, description, sd, ed,
                "You", ["You"], 0, [], now⟩ : Movement) = some mov := h
            obtain rfl : (⟨now, name, charity, description, sd, ed,
                "You", ["You"], 0, [], now⟩ : Movement) = mov := by injection h2
            rfl
  · intro movementId mov hfind hmem
    simp only [joinMovement, hfind]
    rw [if_pos hmem]
  · intro hOnce
    refine ⟨?_, ?_, ?_, ?_, ?_⟩
    · intro now name charity description sd ed
      simp only [createMovement]
      split
      · exact hOnce
      · split
        · exact hOnce
        · split
          · exact hOnce
          · split
            · exact hOnce
            · intro mov hmov
              rw [checkAndUnlockBadges_movements] at hmov
              have hmov2 : mov ∈ s.movements
                  ++ [(⟨now, name, charity, description, sd, ed,
                      "You", ["You"], 0, [], now⟩ : Movement)] := hmov
              rcases List.mem_append.mp hmov2 with h1 | h1
              · exact hOnce mov h1
              · rw [List.mem_singleton] at h1
                rw [h1]
                show (["You"] : List String).count "You" ≤ 1
                decide
    · intro movementId
      simp only [joinMovement]
      cases hfind : findMovement s movementId with
      | none => exact hOnce
      | some mov =>
        dsimp only
        by_cases hmem : (mov.members.contains "You") = true
        · rw [if_pos hmem]
          exact hOnce
        · rw [if_neg hmem]
          intro m2 hm2
          have hmem2 : mov.members.contains "You" = false := by
            revert hmem
            cases mov.members.contains "You" <;> simp
          have hfind2 : s.movements.find? (fun m => m.id == movementId)
              = some mov := hfind
          have hm3 : m2 ∈ updateFirstMovement movementId
              (fun m => { m with members := m.members ++ ["You"] })
              s.movements := hm2
          exact updateFirst_join_once movementId s.movements mov hOnce
            hfind2 hmem2 m2 hm3
    · intro movementId
      simp only [leaveMovement]
      cases hfind : findMovement s movementId with
      | none => exact hOnce
      | some mov =>
        dsimp only
        by_cases hmem : (!(mov.members.contains "You")) = true
        · rw [if_pos hmem]
          exact hOnce
        · rw [if_neg hmem]
          intro m2 hm2
          have hm3 : m2 ∈ updateFirstMovement movementId
              (fun m => { m with members := m.members.erase "You" })
              s.movements := hm2
          refine updateFirstMovement_pres _ movementId
            (fun m => { m with members := m.members.erase "You" })
            s.movements hOnce (fun mv0 hm0 => ?_) m2 hm3
          exact le_trans (count_erase_le mv0.members "You" "You") (hOnce mv0 hm0)
    · intro y m d rnd
      cases hr : (completeWorkout true rnd s y m d).2.reward with
      | none =>
        obtain ⟨_, hmv⟩ := completeWorkout_reward_none rnd s y m d hr
        intro mov hm
        rw [hmv] at hm
        exact hOnce mov hm
      | some r =>
        obtain ⟨_, _, _, hmv⟩ := completeWorkout_reward_some rnd s y m d r hr
        intro mov hm
        rw [hmv] at hm
        rcases List.mem_map.mp hm with ⟨mov0, hmem, heq⟩
        by_cases hc : (mov0.members.contains "You" &&
            isMovementActiveForDate mov0 y m d) = true
        · rw [← heq, if_pos hc]
          rw [contributeReward_members]
          exact hOnce mov0 hmem
        · rw [← heq, if_neg hc]
          exact hOnce mov0 hmem
    · intro movementId wk amount
      simp only [addMovementContribution]
      cases hfind : findMovement s movementId with
      | none => exact hOnce
      | some mov =>
        dsimp only
        by_cases hmem : (!(mov.members.contains "You")) = true
        · rw [if_pos hmem]
          exact hOnce
        · rw [if_neg hmem]
          intro m2 hm2
          have hm3 : m2 ∈ updateFirstMovement movementId
              (fun m => contributeReward m wk amount) s.movements := hm2
          refine updateFirstMovement_pres _ movementId
            (fun m => contributeReward m wk amount)
            s.movements hOnce (fun mv0 hm0 => ?_) m2 hm3
          rw [contributeReward_members]
          exact hOnce mv0 hm0

/-- Witness for C10: the local user already belongs to the sample movement,
so joining it again fails and leaves the store untouched. -/
theorem members_you_at_most_once_witness :
    joinMovement true movementState 1700000000000 = (movementState, false) :=
  (members_you_at_most_once movementState).2.1 1700000000000 sampleMovement
    (by decide) (by decide)

end MoveToGive
